import Mathlib

/-!
Verification of the pseudo-transient adjoint sensitivity integrator
(Tempus::IntegratorPseudoTransientAdjointSensitivity).  The repository
provides the declaration header
`src/packages/tempus/src/Tempus_IntegratorPseudoTransientAdjointSensitivity_decl.hpp`;
the implementation files (`..._impl.hpp`, `Tempus_AdjointSensitivityModelEvaluator.hpp`,
the generic integrator) are not among the given sources, so the behavioural
definitions below are modelled from the specification and from the algorithm
described in the header's documentation comments (decl lines 20-56).
Vectors and operators are embedded over the rationals.
-/

deriving instance DecidableEq for Except

namespace Tempus

open Matrix

/-- Multi-column vector with `n` rows and `k` columns (one column per response
component), the shape of the adjoint variable y and of derivative operators. -/
abbrev MV (n k : ℕ) := Matrix (Fin n) (Fin k) ℚ

/-- Modelled from the spec: the frozen derivative operators of the forward model
and of the response, evaluated at the converged steady state (spec section 3 and
decl lines 33-49).  The model-evaluator implementation that produces them
(Thyra model evaluator, not among the given sources) is abstracted to the values
it returns, together with the model's declared parameter/response block counts. -/
structure ModelDerivs (n np ng : ℕ) where
  dfdx : MV n n
  dfdxdot : MV n n
  dfdp : MV n np
  dgdx : MV ng n
  dgdp : MV np ng
  numParams : ℕ
  numResponses : ℕ
deriving DecidableEq

/-- Configuration surface of the integrator, from the "Sensitivities" sublist
documented at decl lines 66-80: parameter index, response index and the two
mass-matrix flags. -/
structure SensConfig where
  paramIndex : ℕ
  responseIndex : ℕ
  massMatrixIsConstant : Bool
  massMatrixIsIdentity : Bool
deriving DecidableEq

/-- The default configuration values documented at decl lines 71-79. -/
def defaultSensConfig : SensConfig := ⟨0, 0, true, false⟩

/-- Error kinds of the core, from spec section 7. -/
inductive TError where
  | ConfigurationError
  | NotReadyError
  | ConvergenceFailure
  | InternalInvariantError
deriving DecidableEq

/-- Source of the adjoint Jacobian operator (decl lines 82-92 and 100-118):
either the algebraic transpose of the forward Jacobian, or an explicitly
supplied adjoint operator that is used as-is, without further transposition. -/
inductive JacobianSource (n : ℕ) where
  | algebraicTranspose
  | explicitAdjoint (op : MV n n)
deriving DecidableEq

/-- The operator used for the adjoint Jacobian: the transpose of the frozen
forward Jacobian, unless the caller supplied an explicit adjoint operator,
which is assumed already adjoint and is not transposed (decl lines 84-86). -/
def adjointJacobian (src : JacobianSource n) (m : ModelDerivs n np ng) : MV n n :=
  match src with
  | .algebraicTranspose => m.dfdxᵀ
  | .explicitAdjoint op => op

/-- Modelled from the spec: the adjoint model built by createSensitivityModel
(its implementation, Tempus_AdjointSensitivityModelEvaluator.hpp, is not among
the given sources): the frozen operators, the mass-matrix-is-identity
optimization flag, and the adjoint Jacobian operator. -/
structure SensModel (n np ng : ℕ) where
  derivs : ModelDerivs n np ng
  massId : Bool
  adjJac : MV n n
deriving DecidableEq

/-- Modelled from the spec: the adjoint residual
r(ydot, y) = (df/dxdot)ᵀ ydot + (df/dx)ᵀ y - (dg/dx)ᵀ of decl line 40 and spec
section 4.1, where the adjoint Jacobian slot holds `adjJac` and, when the
mass-matrix-is-identity flag is set, the mass-matrix application is skipped
(decl lines 78-79). -/
def adjointResidual (sm : SensModel n np ng) (ydot y : MV n ng) : MV n ng :=
  (if sm.massId then ydot else sm.derivs.dfdxdotᵀ * ydot) + sm.adjJac * y - sm.derivs.dgdxᵀ

/-- Modelled from the spec: construction of the adjoint model
(createSensitivityModel, decl lines 203-208, implementation not among the given
sources).  Fails with a ConfigurationError when the parameter or response index
is out of range for the model's declared counts, or when the mass matrix is
declared non-constant (decl lines 75-77: "this is currently required to be
true"; spec section 7). -/
def createSensitivityModel (cfg : SensConfig) (src : JacobianSource n)
    (m : ModelDerivs n np ng) : Except TError (SensModel n np ng) :=
  if cfg.massMatrixIsConstant = true ∧
      cfg.paramIndex < m.numParams ∧ cfg.responseIndex < m.numResponses then
    .ok ⟨m, cfg.massMatrixIsIdentity, adjointJacobian src m⟩
  else
    .error .ConfigurationError

/-- The Sensitivity Assembler (spec section 4.3, decl lines 45-46):
dg/dp = dg/dp - (df/dp)ᵀ y, stored in gradient format. -/
def assembleDgDp (m : ModelDerivs n np ng) (y : MV n ng) : MV np ng :=
  m.dgdp - m.dfdpᵀ * y

/-- Square of the Frobenius norm of a matrix (sum of squared entries): the
measure used for the steady-state convergence tests of the embedded driver;
it is nonnegative and vanishes exactly on the zero matrix. -/
def matNormSq (a : MV n k) : ℚ := ∑ i, ∑ j, a i j * a i j

/-- Modelled from the spec: the linear test model f(xdot, x, p) = xdot + A x + B p
with response g(x, p) = c x (spec section 8, property 2). -/
structure LinearModel (n np ng : ℕ) where
  A : MV n n
  B : MV n np
  c : MV ng n
deriving DecidableEq

/-- Residual of the linear test model. -/
def linResidual (L : LinearModel n np ng) (xdot x : Fin n → ℚ) (p : Fin np → ℚ) :
    Fin n → ℚ :=
  xdot + L.A.mulVec x + L.B.mulVec p

/-- Response of the linear test model: g(x, p) = c x, independent of p. -/
def linResponse (L : LinearModel n np ng) (x : Fin n → ℚ) (_p : Fin np → ℚ) :
    Fin ng → ℚ :=
  L.c.mulVec x

/-- The frozen derivatives of the linear test model: df/dx = A,
df/dxdot = identity, df/dp = B, dg/dx = c, dg/dp = 0; one parameter block and
one response block. -/
def derivsOfLinear (L : LinearModel n np ng) : ModelDerivs n np ng :=
  ⟨L.A, 1, L.B, L.c, 0, 1, 1⟩

/-- Failure reports of the Generic Pseudo-Transient Driver (spec section 4.4):
divergence, step-budget exhaustion, or an unrecoverable per-step solve failure. -/
inductive FailureReason where
  | divergence
  | stepBudgetExhausted
  | solveFailure
deriving DecidableEq

/-- Result of one driver run (spec section 4.4): a converged terminal state with
its solution history, or a failure. -/
inductive DriverResult (σ : Type) where
  | converged (finalState : σ) (history : List σ)
  | failed (why : FailureReason)
deriving DecidableEq

/-- Whether a driver run converged. -/
def DriverResult.isConv : DriverResult σ → Bool
  | .converged _ _ => true
  | .failed _ => false

/-- Modelled from the spec: the Generic Pseudo-Transient Driver contract (spec
section 4.4, an external collaborator whose code is not among the given
sources): from a start state it repeatedly takes time steps (each step may
report an unrecoverable failure) until the convergence predicate - the supplied
time-derivative norm at or below the tolerance - holds, or the step budget is
exhausted.  The history records the visited states in order, the start state
first. -/
def runDriver (step : σ → Except FailureReason σ) (dotNorm : σ → ℚ) (tol : ℚ) :
    ℕ → σ → List σ → DriverResult σ
  | 0, y, hist =>
    if dotNorm y ≤ tol then .converged y (hist ++ [y])
    else .failed .stepBudgetExhausted
  | fuel + 1, y, hist =>
    if dotNorm y ≤ tol then .converged y (hist ++ [y])
    else
      match step y with
      | .error why => .failed why
      | .ok ynext => runDriver step dotNorm tol fuel ynext (hist ++ [y])

/-- The phases of the Orchestrator state machine (spec section 4.2). -/
inductive Phase where
  | Uninitialized
  | Configured
  | ForwardRunning
  | ForwardConverged
  | AdjointRunning
  | Converged
  | Failed
deriving DecidableEq

/-- Tempus integrator status, as returned by getStatus (decl line 139). -/
inductive Status where
  | working
  | passed
  | failed
deriving DecidableEq

/-- Modelled from the spec: the observable states of the Orchestrator (spec
section 4.2; the advanceTime/getX/getDgDp implementations in the _impl.hpp file
are not among the given sources), together with the data each state has
recorded: the frozen steady state, the converged adjoint state and the
assembled sensitivity. -/
inductive OrchState (n np ng : ℕ) where
  | uninitialized
  | configured
  | forwardRunning
  | forwardConverged (xStar : Fin n → ℚ)
  | adjointRunning (xStar : Fin n → ℚ)
  | converged (xStar : Fin n → ℚ) (yStar : MV n ng) (dgdp : MV np ng)
  | failedForward (why : FailureReason)
  | failedAdjoint (xStar : Fin n → ℚ) (why : FailureReason)
deriving DecidableEq

/-- Whether the forward phase has converged in the given state (the frozen
steady state has been recorded). -/
def forwardHasConverged : OrchState n np ng → Bool
  | .forwardConverged _ => true
  | .adjointRunning _ => true
  | .converged _ _ _ => true
  | .failedAdjoint _ _ => true
  | _ => false

/-- The recorded frozen steady state, when the forward phase has converged. -/
def xStarOf : OrchState n np ng → Option (Fin n → ℚ)
  | .forwardConverged x => some x
  | .adjointRunning x => some x
  | .converged x _ _ => some x
  | .failedAdjoint x _ => some x
  | _ => none

/-- Modelled from the spec: getX (decl line 173) returns the frozen steady
state from ForwardConverged onward and fails with NotReadyError before the
forward phase has converged (spec section 4.2). -/
def getX (st : OrchState n np ng) : Except TError (Fin n → ℚ) :=
  match xStarOf st with
  | some x => .ok x
  | none => .error .NotReadyError

/-- Modelled from the spec: getXDot (decl line 175) returns the converged time
derivative - zero at a pseudo-transient steady state - from ForwardConverged
onward and fails with NotReadyError before (spec section 4.2). -/
def getXDot (st : OrchState n np ng) : Except TError (Fin n → ℚ) :=
  match xStarOf st with
  | some _ => .ok 0
  | none => .error .NotReadyError

/-- Modelled from the spec: getXDotDot (decl line 177), as getXDot. -/
def getXDotDot (st : OrchState n np ng) : Except TError (Fin n → ℚ) :=
  match xStarOf st with
  | some _ => .ok 0
  | none => .error .NotReadyError

/-- Modelled from the spec: getDgDp (decl line 180) returns the assembled
multi-column sensitivity in the Converged state and fails with NotReadyError in
every other state (spec section 4.2). -/
def getDgDp (st : OrchState n np ng) : Except TError (MV np ng) :=
  match st with
  | .converged _ _ d => .ok d
  | _ => .error .NotReadyError

/-- Modelled from the spec: the adjoint phase of advanceTime (spec section 4.2,
step 4; implementation not among the given sources): the Generic
Pseudo-Transient Driver is run on the adjoint model, starting from y = 0, until
the y-derivative norm is at or below the tolerance or the step budget is
exhausted.  The driver's stepping and norm are those of the external
time-stepping engine, each a function of the adjoint model's residual. -/
def adjointPhase (sm : SensModel n np ng)
    (mkStep : (MV n ng → MV n ng → MV n ng) → MV n ng → Except FailureReason (MV n ng))
    (mkNorm : (MV n ng → MV n ng → MV n ng) → MV n ng → ℚ)
    (tol : ℚ) (maxSteps : ℕ) : DriverResult (MV n ng) :=
  runDriver (mkStep (adjointResidual sm)) (mkNorm (adjointResidual sm)) tol maxSteps 0 []

/-- Modelled from the spec: one advanceTime call of the Orchestrator (spec
section 4.2; the _impl.hpp implementation is not among the given sources),
given the adjoint model, the forward driver's outcome and the external
stepping engine.  Returns the terminal state and the ordered list of phases
entered.  A forward failure transitions to Failed without starting the adjoint
phase; on forward convergence the adjoint phase runs from y = 0 and, on its
convergence, the Sensitivity Assembler produces dg/dp. -/
def advancePTAS (sm : SensModel n np ng) (fwd : DriverResult (Fin n → ℚ))
    (mkStep : (MV n ng → MV n ng → MV n ng) → MV n ng → Except FailureReason (MV n ng))
    (mkNorm : (MV n ng → MV n ng → MV n ng) → MV n ng → ℚ)
    (tol : ℚ) (maxSteps : ℕ) : OrchState n np ng × List Phase :=
  match fwd with
  | .failed why => (.failedForward why, [Phase.ForwardRunning, Phase.Failed])
  | .converged x _ =>
    match adjointPhase sm mkStep mkNorm tol maxSteps with
    | .failed why =>
      (.failedAdjoint x why,
        [Phase.ForwardRunning, Phase.ForwardConverged, Phase.AdjointRunning, Phase.Failed])
    | .converged y _ =>
      (.converged x y (assembleDgDp sm.derivs y),
        [Phase.ForwardRunning, Phase.ForwardConverged, Phase.AdjointRunning, Phase.Converged])

/-- Modelled from the spec: the full two-phase run: adjoint-model construction
(surfacing a ConfigurationError immediately, before any integration), then the
two integration phases. -/
def runPTAS (cfg : SensConfig) (src : JacobianSource n) (m : ModelDerivs n np ng)
    (fwd : DriverResult (Fin n → ℚ))
    (mkStep : (MV n ng → MV n ng → MV n ng) → MV n ng → Except FailureReason (MV n ng))
    (mkNorm : (MV n ng → MV n ng → MV n ng) → MV n ng → ℚ)
    (tol : ℚ) (maxSteps : ℕ) : Except TError (OrchState n np ng × List Phase) :=
  match createSensitivityModel cfg src m with
  | .error e => .error e
  | .ok sm => .ok (advancePTAS sm fwd mkStep mkNorm tol maxSteps)

/-- Modelled from the spec: the boolean returned by advanceTime (decl lines
130-133: "return true if successful"): true exactly when the run reached the
Converged state. -/
def advanceTimeReturn (st : OrchState n np ng) : Bool :=
  match st with
  | .converged _ _ _ => true
  | _ => false

/-- Modelled from the spec: the Status accessor (decl line 139): passed when
both phases completed, failed when either phase failed, working otherwise. -/
def getStatusOf : OrchState n np ng → Status
  | .converged _ _ _ => .passed
  | .failedForward _ => .failed
  | .failedAdjoint _ _ => .failed
  | _ => .working

/-- The C++ types of the data members of the integrator class, as declared at
decl lines 212-218. -/
inductive MemberType where
  | modelEvaluator
  | sensModelEvaluator
  | integratorBasic
  | solutionHistoryT
  | multiVector
deriving DecidableEq

/-- The data members of IntegratorPseudoTransientAdjointSensitivity with the
C++ type of each, exactly as declared at decl lines 212-218. -/
def classMembers : List (String × MemberType) :=
  [("model_", .modelEvaluator), ("adjoint_model_", .modelEvaluator),
   ("sens_model_", .sensModelEvaluator),
   ("state_integrator_", .integratorBasic), ("sens_integrator_", .integratorBasic),
   ("solutionHistory_", .solutionHistoryT), ("dgdp_", .multiVector)]

/-- The members holding a solution-history stream: those of SolutionHistory
type. -/
def solutionHistoryMembers : List String :=
  (classMembers.filter (fun mem => mem.2 = MemberType.solutionHistoryT)).map Prod.fst

/-- The public accessors of the class that return a solution history (decl
lines 147-150), each with the class member holding the stream it returns: both
accessors are documented "Get the SolutionHistory" and the class declares
exactly one member of that type, `solutionHistory_` (decl line 217), the single
history holding "this data for all times" (decl lines 51-55), filled by
buildSolutionHistory (decl line 210). -/
def historyAccessors : List (String × String) :=
  [("getSolutionHistory", "solutionHistory_"),
   ("getNonConstSolutionHistory", "solutionHistory_")]

/-- Concrete configuration used by witness runs: the documented defaults. -/
def cfgW : SensConfig := defaultSensConfig

/-- Concrete configuration with the mass matrix declared non-constant. -/
def cfgBadW : SensConfig := ⟨0, 0, false, false⟩

/-- Concrete one-dimensional model data used by witness runs:
df/dx = 2, df/dxdot = 1, df/dp = 5, dg/dx = 3, dg/dp = 0. -/
def mW : ModelDerivs 1 1 1 := ⟨!![2], !![1], !![5], !![3], 0, 1, 1⟩

/-- Concrete converged forward-driver outcome used by witness runs. -/
def fwdW : DriverResult (Fin 1 → ℚ) := .converged (fun _ => 4) [fun _ => 4]

/-- Concrete external stepper used by witness runs: every step lands on the
steady adjoint state 3/2 of the model mW. -/
def mkStepW : (MV 1 1 → MV 1 1 → MV 1 1) → MV 1 1 → Except FailureReason (MV 1 1) :=
  fun _ _ => .ok !![(3:ℚ)/2]

/-- Concrete convergence measure used by witness runs: the squared norm of the
residual at ydot = 0. -/
def mkNormW : (MV 1 1 → MV 1 1 → MV 1 1) → MV 1 1 → ℚ :=
  fun r y => matNormSq (r 0 y)

theorem matNormSq_nonneg (a : MV n k) : 0 ≤ matNormSq a := by
  unfold matNormSq
  exact Finset.sum_nonneg fun i _ => Finset.sum_nonneg fun j _ => mul_self_nonneg _

theorem matNormSq_eq_zero {a : MV n k} (h : matNormSq a = 0) : a = 0 := by
  unfold matNormSq at h
  funext i j
  have hrow : ∀ i2 ∈ Finset.univ, (0:ℚ) ≤ ∑ j2, a i2 j2 * a i2 j2 :=
    fun i2 _ => Finset.sum_nonneg fun j2 _ => mul_self_nonneg _
  have h1 := (Finset.sum_eq_zero_iff_of_nonneg hrow).mp h i (Finset.mem_univ i)
  have h2 := (Finset.sum_eq_zero_iff_of_nonneg
    (fun j2 _ => mul_self_nonneg (a i j2))).mp h1 j (Finset.mem_univ j)
  exact mul_self_eq_zero.mp h2

theorem runDriver_conv (step : σ → Except FailureReason σ) (dotNorm : σ → ℚ)
    (tol : ℚ) : ∀ (fuel : ℕ) (y : σ) (hist : List σ) (z : σ) (h : List σ),
    runDriver step dotNorm tol fuel y hist = .converged z h →
    dotNorm z ≤ tol ∧ ∃ rest, h = hist ++ y :: rest := by
  intro fuel
  induction fuel with
  | zero =>
    intro y hist z h hrun
    unfold runDriver at hrun
    by_cases hc : dotNorm y ≤ tol
    · rw [if_pos hc] at hrun
      obtain ⟨hz, hh⟩ := DriverResult.converged.inj hrun
      subst hz
      exact ⟨hc, [], hh.symm⟩
    · rw [if_neg hc] at hrun
      exact absurd hrun (by simp)
  | succ fuel2 ih =>
    intro y hist z h hrun
    unfold runDriver at hrun
    by_cases hc : dotNorm y ≤ tol
    · rw [if_pos hc] at hrun
      obtain ⟨hz, hh⟩ := DriverResult.converged.inj hrun
      subst hz
      exact ⟨hc, [], hh.symm⟩
    · rw [if_neg hc] at hrun
      cases hstep : step y with
      | error w => rw [hstep] at hrun; exact absurd hrun (by simp)
      | ok ynext =>
        rw [hstep] at hrun
        obtain ⟨h1, rest, hrest⟩ := ih ynext (hist ++ [y]) z h hrun
        refine ⟨h1, ynext :: rest, ?_⟩
        rw [hrest, List.append_assoc]
        rfl

theorem runDriver_fail (step : σ → Except FailureReason σ) (dotNorm : σ → ℚ)
    (tol : ℚ) : ∀ (fuel : ℕ) (y : σ) (hist : List σ) (why : FailureReason),
    runDriver step dotNorm tol fuel y hist = .failed why →
    why = .stepBudgetExhausted ∨ ∃ z, step z = .error why := by
  intro fuel
  induction fuel with
  | zero =>
    intro y hist why hrun
    unfold runDriver at hrun
    by_cases hc : dotNorm y ≤ tol
    · rw [if_pos hc] at hrun; exact absurd hrun (by simp)
    · rw [if_neg hc] at hrun
      exact Or.inl (DriverResult.failed.inj hrun).symm
  | succ fuel2 ih =>
    intro y hist why hrun
    unfold runDriver at hrun
    by_cases hc : dotNorm y ≤ tol
    · rw [if_pos hc] at hrun; exact absurd hrun (by simp)
    · rw [if_neg hc] at hrun
      cases hstep : step y with
      | error w =>
        rw [hstep] at hrun
        obtain hw := (DriverResult.failed.inj hrun).symm
        subst hw
        exact Or.inr ⟨y, hstep⟩
      | ok ynext =>
        rw [hstep] at hrun
        exact ih ynext (hist ++ [y]) why hrun

theorem runPTAS_ok_converged {cfg : SensConfig} {src : JacobianSource n}
    {m : ModelDerivs n np ng} {fwd : DriverResult (Fin n → ℚ)}
    {mkStep : (MV n ng → MV n ng → MV n ng) → MV n ng → Except FailureReason (MV n ng)}
    {mkNorm : (MV n ng → MV n ng → MV n ng) → MV n ng → ℚ}
    {tol : ℚ} {maxSteps : ℕ} {x : Fin n → ℚ} {y : MV n ng} {d : MV np ng}
    {trace : List Phase}
    (hrun : runPTAS cfg src m fwd mkStep mkNorm tol maxSteps =
      .ok (.converged x y d, trace)) :
    d = assembleDgDp m y ∧
    (∃ histx, fwd = .converged x histx) ∧
    (∃ histy, adjointPhase ⟨m, cfg.massMatrixIsIdentity, adjointJacobian src m⟩
        mkStep mkNorm tol maxSteps = .converged y histy) := by
  unfold runPTAS at hrun
  split at hrun
  case h_1 e heq => exact absurd hrun (by simp)
  case h_2 sm heq =>
    unfold createSensitivityModel at heq
    split at heq
    case isTrue hcond =>
      obtain hsm := Except.ok.inj heq
      subst hsm
      obtain hpair := Except.ok.inj hrun
      cases fwd with
      | failed w => exact absurd hpair (by simp [advancePTAS])
      | converged x0 hx =>
        simp only [advancePTAS] at hpair
        cases hadj : adjointPhase ⟨m, cfg.massMatrixIsIdentity, adjointJacobian src m⟩
            mkStep mkNorm tol maxSteps with
        | failed w =>
          rw [hadj] at hpair
          exact absurd hpair (by simp)
        | converged y0 hy =>
          rw [hadj] at hpair
          simp only [Prod.mk.injEq, OrchState.converged.injEq] at hpair
          obtain ⟨⟨hx0, hy0, hd⟩, htr⟩ := hpair
          subst hx0; subst hy0
          exact ⟨hd.symm, ⟨hx, rfl⟩, ⟨hy, rfl⟩⟩
    case isFalse hcond => exact absurd heq (by simp)

/-- C3 counterexample: the solution histories of the two phases are not
exposed as two independent, separately queryable streams: every
history-returning accessor declared in the integrator's public interface
returns the same single SolutionHistory member, and the class stores exactly
one such member. -/
theorem single_history_stream_counterexample :
    (¬ ∃ a, a ∈ historyAccessors ∧ ∃ b, b ∈ historyAccessors ∧ a.2 ≠ b.2) ∧
    solutionHistoryMembers.length = 1 := by
  decide

/-- C3 amended: the integrator exposes a single solution-history stream: both
declared history accessors return the one solutionHistory_ member, the single
history that holds the data of both phases for all times. -/
theorem single_merged_history_stream :
    historyAccessors.length = 2 ∧
    (∀ a, a ∈ historyAccessors → a.2 = "solutionHistory_") ∧
    solutionHistoryMembers = ["solutionHistory_"] := by
  decide

/-- C4: for every orchestrator state, getX, getXDot and getXDotDot succeed
exactly when the forward phase has converged, returning the frozen steady
state and its (zero) time derivatives, and fail with NotReadyError before the
forward phase has converged; getDgDp succeeds exactly in the Converged state,
returning the assembled multi-column sensitivity, and fails with NotReadyError
in every other state. -/
theorem accessor_readiness : ∀ (n np ng : ℕ) (st : OrchState n np ng),
    ((∃ v, getX st = .ok v) ↔ forwardHasConverged st = true) ∧
    ((∃ v, getXDot st = .ok v) ↔ forwardHasConverged st = true) ∧
    ((∃ v, getXDotDot st = .ok v) ↔ forwardHasConverged st = true) ∧
    (forwardHasConverged st = false →
      getX st = .error .NotReadyError ∧ getXDot st = .error .NotReadyError ∧
      getXDotDot st = .error .NotReadyError) ∧
    (∀ x, xStarOf st = some x →
      getX st = .ok x ∧ getXDot st = .ok 0 ∧ getXDotDot st = .ok 0) ∧
    ((∃ dg, getDgDp st = .ok dg) ↔ ∃ x y d, st = OrchState.converged x y d) ∧
    (∀ x y d, st = OrchState.converged x y d → getDgDp st = .ok d) ∧
    ((¬ ∃ x y d, st = OrchState.converged x y d) →
      getDgDp st = .error .NotReadyError) := by
  intro n np ng st
  cases st <;>
    simp [getX, getXDot, getXDotDot, getDgDp, xStarOf, forwardHasConverged]

/-- C5: when the forward phase fails, one advance call ends in the Failed
state surfacing the forward driver's failure reason, the AdjointRunning phase
is never entered, the reported status is failed, and the outcome does not
depend on the adjoint-phase stepping engine at all - the adjoint integration
never runs on a non-converged forward state. -/
theorem forward_failure_skips_adjoint :
    ∀ (n np ng : ℕ) (sm : SensModel n np ng) (why : FailureReason)
      (mkStep mkStep2 : (MV n ng → MV n ng → MV n ng) → MV n ng → Except FailureReason (MV n ng))
      (mkNorm mkNorm2 : (MV n ng → MV n ng → MV n ng) → MV n ng → ℚ)
      (tol : ℚ) (maxSteps : ℕ),
    advancePTAS sm (.failed why) mkStep mkNorm tol maxSteps =
      (.failedForward why, [Phase.ForwardRunning, Phase.Failed]) ∧
    Phase.AdjointRunning ∉ (advancePTAS sm (.failed why) mkStep mkNorm tol maxSteps).2 ∧
    getStatusOf (advancePTAS sm (.failed why) mkStep mkNorm tol maxSteps).1 = .failed ∧
    advanceTimeReturn (advancePTAS sm (.failed why) mkStep mkNorm tol maxSteps).1 = false ∧
    advancePTAS sm (.failed why) mkStep mkNorm tol maxSteps =
      advancePTAS sm (.failed why) mkStep2 mkNorm2 tol maxSteps := by
  intro n np ng sm why mkStep mkStep2 mkNorm mkNorm2 tol maxSteps
  refine ⟨rfl, ?_, rfl, rfl, rfl⟩
  simp [advancePTAS]

/-- C8: an explicitly supplied adjoint operator is used as the adjoint
Jacobian without further transposition, and supplying the algebraic transpose
of the forward Jacobian as the explicit adjoint operator produces a run
identical to the default transpose-based path. -/
theorem explicit_adjoint_equivalence :
    ∀ (n np ng : ℕ) (cfg : SensConfig) (m : ModelDerivs n np ng) (B : MV n n)
      (fwd : DriverResult (Fin n → ℚ))
      (mkStep : (MV n ng → MV n ng → MV n ng) → MV n ng → Except FailureReason (MV n ng))
      (mkNorm : (MV n ng → MV n ng → MV n ng) → MV n ng → ℚ)
      (tol : ℚ) (maxSteps : ℕ),
    adjointJacobian (JacobianSource.explicitAdjoint B) m = B ∧
    runPTAS cfg (JacobianSource.explicitAdjoint m.dfdxᵀ) m fwd mkStep mkNorm tol maxSteps =
      runPTAS cfg JacobianSource.algebraicTranspose m fwd mkStep mkNorm tol maxSteps := by
  intro n np ng cfg m B fwd mkStep mkNorm tol maxSteps
  exact ⟨rfl, rfl⟩

/-- C9: the adjoint phase runs the pseudo-transient driver from the initial
condition y = 0 (the first recorded history state of a converged run is 0),
stopping as soon as the y-derivative measure is at or below the tolerance, and
failing only by step-budget exhaustion or a failure reported by a step of the
external stepper. -/
theorem adjoint_phase_from_zero_until_tol :
    ∀ (n np ng : ℕ) (sm : SensModel n np ng)
      (mkStep : (MV n ng → MV n ng → MV n ng) → MV n ng → Except FailureReason (MV n ng))
      (mkNorm : (MV n ng → MV n ng → MV n ng) → MV n ng → ℚ)
      (tol : ℚ) (maxSteps : ℕ),
    (∀ y hist, adjointPhase sm mkStep mkNorm tol maxSteps = .converged y hist →
      hist.head? = some 0 ∧ mkNorm (adjointResidual sm) y ≤ tol) ∧
    (∀ why, adjointPhase sm mkStep mkNorm tol maxSteps = .failed why →
      why = .stepBudgetExhausted ∨ ∃ z, mkStep (adjointResidual sm) z = .error why) := by
  intro n np ng sm mkStep mkNorm tol maxSteps
  constructor
  · intro y hist hconv
    unfold adjointPhase at hconv
    obtain ⟨hle, rest, hrest⟩ :=
      runDriver_conv (mkStep (adjointResidual sm)) (mkNorm (adjointResidual sm))
        tol maxSteps 0 [] y hist hconv
    subst hrest
    exact ⟨rfl, hle⟩
  · intro why hfail
    unfold adjointPhase at hfail
    exact runDriver_fail (mkStep (adjointResidual sm)) (mkNorm (adjointResidual sm))
      tol maxSteps 0 [] why hfail

/-- C10: advanceTime reports the outcome through its boolean return value and
the Status accessor: it returns true exactly when both the forward integration
and the adjoint integration complete successfully, it returns false (as a
value, not an exception) otherwise, and the status is passed exactly when the
returned boolean is true. -/
theorem advanceTime_true_iff_both_phases :
    ∀ (n np ng : ℕ) (sm : SensModel n np ng) (fwd : DriverResult (Fin n → ℚ))
      (mkStep : (MV n ng → MV n ng → MV n ng) → MV n ng → Except FailureReason (MV n ng))
      (mkNorm : (MV n ng → MV n ng → MV n ng) → MV n ng → ℚ)
      (tol : ℚ) (maxSteps : ℕ),
    (advanceTimeReturn (advancePTAS sm fwd mkStep mkNorm tol maxSteps).1 = true ↔
      fwd.isConv = true ∧ (adjointPhase sm mkStep mkNorm tol maxSteps).isConv = true) ∧
    (getStatusOf (advancePTAS sm fwd mkStep mkNorm tol maxSteps).1 = .passed ↔
      advanceTimeReturn (advancePTAS sm fwd mkStep mkNorm tol maxSteps).1 = true) := by
  intro n np ng sm fwd mkStep mkNorm tol maxSteps
  cases fwd with
  | failed w =>
    simp [advancePTAS, DriverResult.isConv, advanceTimeReturn, getStatusOf]
  | converged x hx =>
    cases hadj : adjointPhase sm mkStep mkNorm tol maxSteps with
    | failed w =>
      simp [advancePTAS, hadj, DriverResult.isConv, advanceTimeReturn, getStatusOf]
    | converged y hy =>
      simp [advancePTAS, hadj, DriverResult.isConv, advanceTimeReturn, getStatusOf]

/-- C6: if the configuration declares the mass matrix non-constant, building
the adjoint model fails with a ConfigurationError, and the full run surfaces
exactly that error without proceeding to any integration. -/
theorem nonconstant_mass_configuration_error
    (cfg : SensConfig) (src : JacobianSource n) (m : ModelDerivs n np ng)
    (fwd : DriverResult (Fin n → ℚ))
    (mkStep : (MV n ng → MV n ng → MV n ng) → MV n ng → Except FailureReason (MV n ng))
    (mkNorm : (MV n ng → MV n ng → MV n ng) → MV n ng → ℚ)
    (tol : ℚ) (maxSteps : ℕ)
    (hflag : cfg.massMatrixIsConstant = false) :
    createSensitivityModel cfg src m = .error .ConfigurationError ∧
    runPTAS cfg src m fwd mkStep mkNorm tol maxSteps = .error .ConfigurationError := by
  have hc : ¬ (cfg.massMatrixIsConstant = true ∧
      cfg.paramIndex < m.numParams ∧ cfg.responseIndex < m.numResponses) := by
    intro hcond
    rw [hflag] at hcond
    exact Bool.false_ne_true hcond.1
  have h1 : createSensitivityModel cfg src m = .error .ConfigurationError := by
    unfold createSensitivityModel
    rw [if_neg hc]
  refine ⟨h1, ?_⟩
  unfold runPTAS
  rw [h1]

/-- C6 witness: the configuration declaring a non-constant mass matrix makes
the concrete run fail with a ConfigurationError. -/
theorem nonconstant_mass_configuration_error_witness :
    cfgBadW.massMatrixIsConstant = false ∧
    (createSensitivityModel cfgBadW .algebraicTranspose mW = .error .ConfigurationError ∧
     runPTAS cfgBadW .algebraicTranspose mW fwdW mkStepW mkNormW 0 2 =
       .error .ConfigurationError) :=
  ⟨rfl, nonconstant_mass_configuration_error cfgBadW .algebraicTranspose mW fwdW
    mkStepW mkNormW 0 2 rfl⟩

/-- C7: when the mass matrix is numerically the identity, a run with the
mass-matrix-is-identity optimization on is identical - same adjoint state,
same sensitivity, same phase trace - to the run with it off. -/
theorem mass_identity_equivalence
    (cfg : SensConfig) (src : JacobianSource n) (m : ModelDerivs n np ng)
    (fwd : DriverResult (Fin n → ℚ))
    (mkStep : (MV n ng → MV n ng → MV n ng) → MV n ng → Except FailureReason (MV n ng))
    (mkNorm : (MV n ng → MV n ng → MV n ng) → MV n ng → ℚ)
    (tol : ℚ) (maxSteps : ℕ)
    (hM : m.dfdxdot = 1) :
    runPTAS ⟨cfg.paramIndex, cfg.responseIndex, cfg.massMatrixIsConstant, true⟩
        src m fwd mkStep mkNorm tol maxSteps =
      runPTAS ⟨cfg.paramIndex, cfg.responseIndex, cfg.massMatrixIsConstant, false⟩
        src m fwd mkStep mkNorm tol maxSteps := by
  have hres : adjointResidual (⟨m, true, adjointJacobian src m⟩ : SensModel n np ng) =
      adjointResidual ⟨m, false, adjointJacobian src m⟩ := by
    funext ydot y
    simp [adjointResidual, hM, Matrix.transpose_one, Matrix.one_mul]
  have hadv : advancePTAS (⟨m, true, adjointJacobian src m⟩ : SensModel n np ng)
        fwd mkStep mkNorm tol maxSteps =
      advancePTAS ⟨m, false, adjointJacobian src m⟩ fwd mkStep mkNorm tol maxSteps := by
    unfold advancePTAS adjointPhase
    rw [hres]
  simp only [runPTAS, createSensitivityModel]
  by_cases hcond : cfg.massMatrixIsConstant = true ∧
      cfg.paramIndex < m.numParams ∧ cfg.responseIndex < m.numResponses
  · rw [if_pos hcond, if_pos hcond]
    show Except.ok (advancePTAS (⟨m, true, adjointJacobian src m⟩ : SensModel n np ng)
        fwd mkStep mkNorm tol maxSteps) =
      Except.ok (advancePTAS ⟨m, false, adjointJacobian src m⟩ fwd mkStep mkNorm tol maxSteps)
    rw [hadv]
  · rw [if_neg hcond, if_neg hcond]

/-- C7 witness: for the concrete model, whose mass matrix is the identity,
the optimized and the unoptimized runs coincide. -/
theorem mass_identity_equivalence_witness :
    mW.dfdxdot = 1 ∧
    runPTAS ⟨cfgW.paramIndex, cfgW.responseIndex, cfgW.massMatrixIsConstant, true⟩
        .algebraicTranspose mW fwdW mkStepW mkNormW 0 2 =
      runPTAS ⟨cfgW.paramIndex, cfgW.responseIndex, cfgW.massMatrixIsConstant, false⟩
        .algebraicTranspose mW fwdW mkStepW mkNormW 0 2 :=
  ⟨by with_unfolding_all decide,
   mass_identity_equivalence cfgW .algebraicTranspose mW fwdW mkStepW mkNormW 0 2
     (by with_unfolding_all decide)⟩

/-- C2: a converged adjoint state y of a completed run solves the steady
adjoint equation (df/dx) transposed times y equals (dg/dx) transposed with the
Jacobians frozen at the steady state; when the frozen forward Jacobian is
invertible, y equals the inverse-transpose formula and is the unique solution
of the steady adjoint equation.  The run's convergence measure is taken exact
(tolerance zero): the driver's norm is the squared norm of the residual at
ydot = 0. -/
theorem adjoint_steady_equation
    (cfg : SensConfig) (m : ModelDerivs n np ng) (fwd : DriverResult (Fin n → ℚ))
    (mkStep : (MV n ng → MV n ng → MV n ng) → MV n ng → Except FailureReason (MV n ng))
    (mkNorm : (MV n ng → MV n ng → MV n ng) → MV n ng → ℚ)
    (maxSteps : ℕ) (x : Fin n → ℚ) (y : MV n ng) (d : MV np ng) (trace : List Phase)
    (hnorm : ∀ (r : MV n ng → MV n ng → MV n ng) (z : MV n ng),
      mkNorm r z = matNormSq (r 0 z))
    (hdet : IsUnit m.dfdx.det)
    (hrun : runPTAS cfg .algebraicTranspose m fwd mkStep mkNorm 0 maxSteps =
      .ok (.converged x y d, trace)) :
    m.dfdxᵀ * y = m.dgdxᵀ ∧
    y = (m.dfdxᵀ)⁻¹ * m.dgdxᵀ ∧
    (∀ y2, m.dfdxᵀ * y2 = m.dgdxᵀ → y2 = y) := by
  obtain ⟨hd, ⟨histx, hfwd⟩, histy, hadj⟩ := runPTAS_ok_converged hrun
  unfold adjointPhase at hadj
  obtain ⟨hle, _⟩ := runDriver_conv _ _ 0 maxSteps 0 [] y histy hadj
  rw [hnorm] at hle
  have h0 : matNormSq (adjointResidual
      ⟨m, cfg.massMatrixIsIdentity, adjointJacobian .algebraicTranspose m⟩ 0 y) = 0 :=
    le_antisymm hle (matNormSq_nonneg _)
  have hres0 := matNormSq_eq_zero h0
  unfold adjointResidual adjointJacobian at hres0
  simp only [Matrix.mul_zero, ite_self, zero_add, sub_eq_zero] at hres0
  have hdetT : IsUnit (m.dfdxᵀ).det := by rwa [Matrix.det_transpose]
  have hinv : ∀ y2, m.dfdxᵀ * y2 = m.dgdxᵀ → y2 = (m.dfdxᵀ)⁻¹ * m.dgdxᵀ := by
    intro y2 h2
    rw [← h2, ← Matrix.mul_assoc, Matrix.nonsing_inv_mul _ hdetT, Matrix.one_mul]
  exact ⟨hres0, hinv y hres0, fun y2 h2 => (hinv y2 h2).trans (hinv y hres0).symm⟩

/-- C2 witness: the concrete run converges to the adjoint state 3/2 of the
one-dimensional model with df/dx = 2, dg/dx = 3, which solves 2 y = 3, equals
the inverse formula, and is unique. -/
theorem adjoint_steady_equation_witness :
    (∀ (r : MV 1 1 → MV 1 1 → MV 1 1) (z : MV 1 1), mkNormW r z = matNormSq (r 0 z)) ∧
    IsUnit mW.dfdx.det ∧
    (mW.dfdxᵀ * !![(3:ℚ)/2] = mW.dgdxᵀ ∧
     !![(3:ℚ)/2] = (mW.dfdxᵀ)⁻¹ * mW.dgdxᵀ ∧
     (∀ y2, mW.dfdxᵀ * y2 = mW.dgdxᵀ → y2 = !![(3:ℚ)/2])) := by
  have hdet : IsUnit mW.dfdx.det := by
    rw [show mW.dfdx.det = 2 from by simp [mW, Matrix.det_fin_one]]
    exact isUnit_iff_ne_zero.mpr (by norm_num)
  refine ⟨fun r z => rfl, hdet, ?_⟩
  exact adjoint_steady_equation cfgW mW fwdW mkStepW mkNormW 2 (fun _ => 4)
    !![(3:ℚ)/2] (assembleDgDp mW !![(3:ℚ)/2])
    [Phase.ForwardRunning, Phase.ForwardConverged, Phase.AdjointRunning, Phase.Converged]
    (fun r z => rfl) hdet (by with_unfolding_all decide)

/-- C1: the sensitivity recorded by a completed run and returned by getDgDp
equals dg/dp minus (df/dp) transposed times the converged adjoint state; in
particular for the linear model f = xdot + A x + B p with response g = c x
(whose response is independent of p and whose residual has parameter
derivative B, time-derivative coefficient the identity, and state derivative
A), it equals minus B transposed times the adjoint state. -/
theorem getDgDp_sensitivity
    (cfg : SensConfig) (src : JacobianSource n) (m : ModelDerivs n np ng)
    (fwd : DriverResult (Fin n → ℚ))
    (mkStep : (MV n ng → MV n ng → MV n ng) → MV n ng → Except FailureReason (MV n ng))
    (mkNorm : (MV n ng → MV n ng → MV n ng) → MV n ng → ℚ)
    (tol : ℚ) (maxSteps : ℕ)
    (x : Fin n → ℚ) (y : MV n ng) (d : MV np ng) (trace : List Phase)
    (hrun : runPTAS cfg src m fwd mkStep mkNorm tol maxSteps =
      .ok (.converged x y d, trace)) :
    getDgDp (OrchState.converged x y d : OrchState n np ng) =
      .ok (m.dgdp - m.dfdpᵀ * y) ∧
    (∀ L : LinearModel n np ng, m = derivsOfLinear L →
      getDgDp (OrchState.converged x y d : OrchState n np ng) = .ok (-(L.Bᵀ * y)) ∧
      (∀ xv p1 p2, linResponse L xv p1 = linResponse L xv p2) ∧
      (∀ xd xv p dp, linResidual L xd xv (p + dp) - linResidual L xd xv p = L.B.mulVec dp) ∧
      (∀ xd dxd xv p, linResidual L (xd + dxd) xv p - linResidual L xd xv p = dxd) ∧
      (∀ xd xv dxv p, linResidual L xd (xv + dxv) p - linResidual L xd xv p = L.A.mulVec dxv)) := by
  obtain ⟨hd, _, _⟩ := runPTAS_ok_converged hrun
  subst hd
  constructor
  · simp [getDgDp, assembleDgDp]
  · intro L hL
    subst hL
    refine ⟨?_, fun xv p1 p2 => rfl, ?_, ?_, ?_⟩
    · simp [getDgDp, assembleDgDp, derivsOfLinear, zero_sub]
    · intro xd xv p dp
      simp only [linResidual, Matrix.mulVec_add]
      abel
    · intro xd dxd xv p
      simp only [linResidual]
      abel
    · intro xd xv dxv p
      simp only [linResidual, Matrix.mulVec_add]
      abel

/-- C1 witness: for the concrete completed run, getDgDp returns
dg/dp - (df/dp) transposed times the adjoint state 3/2. -/
theorem getDgDp_sensitivity_witness :
    runPTAS cfgW .algebraicTranspose mW fwdW mkStepW mkNormW 0 2 =
      .ok (.converged (fun _ => 4) !![(3:ℚ)/2] (assembleDgDp mW !![(3:ℚ)/2]),
        [Phase.ForwardRunning, Phase.ForwardConverged, Phase.AdjointRunning,
          Phase.Converged]) ∧
    getDgDp (OrchState.converged (fun _ => 4) !![(3:ℚ)/2]
        (assembleDgDp mW !![(3:ℚ)/2]) : OrchState 1 1 1) =
      .ok (mW.dgdp - mW.dfdpᵀ * !![(3:ℚ)/2]) := by
  have hrun : runPTAS cfgW .algebraicTranspose mW fwdW mkStepW mkNormW 0 2 =
      .ok (.converged (fun _ => 4) !![(3:ℚ)/2] (assembleDgDp mW !![(3:ℚ)/2]),
        [Phase.ForwardRunning, Phase.ForwardConverged, Phase.AdjointRunning,
          Phase.Converged]) := by
    with_unfolding_all decide
  exact ⟨hrun, (getDgDp_sensitivity cfgW .algebraicTranspose mW fwdW mkStepW mkNormW
    0 2 (fun _ => 4) !![(3:ℚ)/2] (assembleDgDp mW !![(3:ℚ)/2]) _ hrun).1⟩

end Tempus
